import Mathlib

/-!
Verification development for the microloan-approval statement pipeline
(`server/server.js`): row normalization and income/expense classification
(`analyzeTransactions`), the analytics engine, the eligibility scorer
(`checkEligibility`), and the document-text extractor (`parsePDF`).

Numbers are modelled as rationals (JS numeric semantics without rounding
error); the JS built-ins `Math.sqrt`, `new Date(...)` parsing and the
year-month key of a date are environment parameters, since they are not
code of this repository.  All other string handling (`toLowerCase`,
`trim`, `includes`, `parseFloat`, `replace`, regex matching) is embedded
concretely on character lists.
-/

namespace Microloan

/-! ## JS string primitives -/

/-- `pat` is a leading segment of `s` (character-wise). -/
def leadsWith : List Char → List Char → Bool
  | [], _ => true
  | _ :: _, [] => false
  | a :: as, b :: bs => a == b && leadsWith as bs

/-- `pat` occurs contiguously inside `s`: JS `String.prototype.includes`. -/
def hasSub (pat : List Char) : List Char → Bool
  | [] => pat.isEmpty
  | c :: rest => leadsWith pat (c :: rest) || hasSub pat rest

/-- JS `s.includes(pat)`. -/
def jsIncludes (s pat : String) : Bool := hasSub pat.toList s.toList

/-- JS `s.toLowerCase()` (ASCII, which covers every string the code compares). -/
def jsLower (s : String) : String := ⟨s.toList.map Char.toLower⟩

/-- Trim whitespace from both ends of a character list. -/
def trimL (cs : List Char) : List Char :=
  ((cs.dropWhile Char.isWhitespace).reverse.dropWhile Char.isWhitespace).reverse

/-- JS `s.trim()`. -/
def jsTrim (s : String) : String := ⟨trimL s.toList⟩

/-- JS `s.replace(/,/g, '')`. -/
def stripCommas (s : String) : String := ⟨s.toList.filter (· ≠ ',')⟩

/-- Numeric value of a digit list (most significant first). -/
def digitsToNat (ds : List Char) : ℕ := ds.foldl (fun a c => 10 * a + (c.toNat - 48)) 0

/-- JS `parseFloat`: leading whitespace, optional sign, digits with at most one
decimal point, optional exponent; `none` models `NaN` (no digits consumed). -/
def jsParseFloat (s : String) : Option ℚ :=
  let cs := s.toList.dropWhile Char.isWhitespace
  let sgn : ℚ := match cs with | '-' :: _ => -1 | _ => 1
  let cs1 : List Char := match cs with | '-' :: r => r | '+' :: r => r | _ => cs
  let ip := cs1.takeWhile Char.isDigit
  let r1 := cs1.drop ip.length
  let fp : List Char := match r1 with | '.' :: r => r.takeWhile Char.isDigit | _ => []
  let r2 : List Char := match r1 with | '.' :: r => r.drop fp.length | _ => r1
  if ip.isEmpty && fp.isEmpty then none
  else
    let mant : ℚ := (digitsToNat ip : ℚ) + (digitsToNat fp : ℚ) / (10 : ℚ) ^ fp.length
    let expv : ℤ :=
      match r2 with
      | 'e' :: r | 'E' :: r =>
        match r with
        | '-' :: d => if (d.takeWhile Char.isDigit).isEmpty then 0
                      else -(digitsToNat (d.takeWhile Char.isDigit) : ℤ)
        | '+' :: d => if (d.takeWhile Char.isDigit).isEmpty then 0
                      else (digitsToNat (d.takeWhile Char.isDigit) : ℤ)
        | d => if (d.takeWhile Char.isDigit).isEmpty then 0
               else (digitsToNat (d.takeWhile Char.isDigit) : ℤ)
      | _ => 0
    some (sgn * mant * (10 : ℚ) ^ expv)

/-- JS `a || b` on strings (empty string is falsy). -/
def jsOr (a b : String) : String := if a = "" then b else a

/-- JS `Math.round`: round half toward positive infinity. -/
def jsRound (q : ℚ) : ℤ := ⌊q + 1 / 2⌋

/-! ## Data model -/

/-- Final transaction kind assigned by the classifier. -/
inductive TKind where
  | income
  | expense
deriving DecidableEq, Repr

/-- A classified transaction as pushed by `analyzeTransactions`. -/
structure Transaction where
  amount : ℚ
  type : TKind
  description : String
  date : String
deriving DecidableEq, Repr

/-- A raw input row: ordered field-name/value pairs (a JS object row). -/
abbrev Row := List (String × String)

/-! ## Row normalizer (`analyzeTransactions`, column resolution) -/

/-- Amount-column aliases (source list, already lower-case/trimmed). -/
def amountColumns : List String :=
  ["amount", "transaction_amount", "amount_inr", "value", "balance",
   "credit", "debit", "deposit", "withdrawal", "transaction value",
   "amt", "amount (inr)", "transaction amount", "balance amount"]

/-- Type/description column aliases. -/
def typeColumns : List String :=
  ["type", "transaction_type", "category", "description", "narration",
   "particulars", "details", "transaction description", "remarks"]

/-- Date column aliases. -/
def dateColumns : List String :=
  ["date", "transaction_date", "date_time", "value date",
   "transaction date", "date of transaction", "posting date"]

/-- `keys.find(k => k.toLowerCase().trim() === col)`, returning that key's value. -/
def findCol (row : Row) (col : String) : Option String :=
  (row.find? (fun kv => jsTrim (jsLower kv.1) == col)).map Prod.snd

/-- The amount-alias loop: first alias whose (non-empty) value parses to a
non-zero number; a zero/unparseable value leaves 0 and the loop continues. -/
def resolveAmountPrimary : List String → Row → ℚ
  | [], _ => 0
  | c :: cs, row =>
    match findCol row c with
    | some v =>
      if v ≠ "" then
        let a := (jsParseFloat (stripCommas v)).getD 0
        if a ≠ 0 then a else resolveAmountPrimary cs row
      else resolveAmountPrimary cs row
    | none => resolveAmountPrimary cs row

/-- The fallback scan over all fields: first field whose name does not contain
`date`/`id`/`no` and whose value parses with `0 < |v| < 100000000`. -/
def resolveFallback (row : Row) : ℚ :=
  match row.find? (fun kv =>
      !(jsIncludes (jsLower kv.1) "date" || jsIncludes (jsLower kv.1) "id" ||
        jsIncludes (jsLower kv.1) "no") &&
      (match jsParseFloat (stripCommas kv.2) with
       | some x => decide (0 < |x| ∧ |x| < 100000000)
       | none => false)) with
  | some kv => (jsParseFloat (stripCommas kv.2)).getD 0
  | none => 0

/-- The resolved amount of a row (primary alias loop, then fallback scan). -/
def resolveAmount (row : Row) : ℚ :=
  let a := resolveAmountPrimary amountColumns row
  if a = 0 then resolveFallback row else a

/-- The type-column loop: first non-empty match gives
`(value.toLowerCase(), value)` as `(type, description)`. -/
def resolveTypeDesc : List String → Row → String × String
  | [], _ => ("", "")
  | c :: cs, row =>
    match findCol row c with
    | some v => if v ≠ "" then (jsLower v, v) else resolveTypeDesc cs row
    | none => resolveTypeDesc cs row

/-- Description fallback: first key containing
`description`/`narration`/`particulars`. -/
def resolveDescFallback (row : Row) : String :=
  match row.find? (fun kv =>
      jsIncludes (jsLower kv.1) "description" || jsIncludes (jsLower kv.1) "narration" ||
      jsIncludes (jsLower kv.1) "particulars") with
  | some kv => kv.2
  | none => ""

/-- The date-column loop: first non-empty match. -/
def resolveDate : List String → Row → String
  | [], _ => ""
  | c :: cs, row =>
    match findCol row c with
    | some v => if v ≠ "" then v else resolveDate cs row
    | none => resolveDate cs row

/-- JS `row.type`: the value of the property literally named `type`. -/
def rowRawType (row : Row) : Option String :=
  (row.find? (fun kv => kv.1 == "type")).map Prod.snd

/-- Expense keywords of the classifier heuristic. -/
def expenseKeywords : List String :=
  ["purchase", "check", "withdrawal", "charge", "debit", "payment", "fee"]

/-- Income keywords of the classifier heuristic. -/
def incomeKeywords : List String :=
  ["credit", "deposit", "interest", "salary", "income", "preauthorized"]

/-- The case-folded combined type/description text the keyword heuristic reads:
`(type || description || '').toLowerCase()`. -/
def rowDescLower (row : Row) : String :=
  jsLower (jsOr (resolveTypeDesc typeColumns row).1
    (if (resolveTypeDesc typeColumns row).2 = "" then resolveDescFallback row
     else (resolveTypeDesc typeColumns row).2))

/-- Does the case-folded text contain any keyword of the list? -/
def hasAnyKeyword (kws : List String) (descLower : String) : Bool :=
  kws.any (fun kw => jsIncludes descLower kw)

/-! ## Transaction classifier (`analyzeTransactions`, per-row branch) -/

/-- The single `Transaction` the `forEach` body pushes for a row.  Every branch
of the source pushes exactly one record whose `amount` is `Math.abs(amount)`
and adds that same value to the total matching the assigned kind (in the final
`else` branch the raw `amount` is added, but there `amount = 0 = |amount|`). -/
def processRow (row : Row) : Transaction :=
  let amount := resolveAmount row
  let ty := (resolveTypeDesc typeColumns row).1
  let desc :=
    if (resolveTypeDesc typeColumns row).2 = "" then resolveDescFallback row
    else (resolveTypeDesc typeColumns row).2
  let date := resolveDate dateColumns row
  let outDesc := jsOr ty (jsOr desc "Transaction")
  let outDate := jsOr date "N/A"
  if rowRawType row = some "credit" then
    ⟨|amount|, .income, outDesc, outDate⟩
  else if rowRawType row = some "debit" then
    ⟨|amount|, .expense, outDesc, outDate⟩
  else
    let descLower := rowDescLower row
    if hasAnyKeyword expenseKeywords descLower then
      ⟨|amount|, .expense, outDesc, outDate⟩
    else if hasAnyKeyword incomeKeywords descLower || decide (0 < amount) then
      ⟨|amount|, .income, outDesc, outDate⟩
    else if amount < 0 then
      ⟨|amount|, .expense, outDesc, outDate⟩
    else
      ⟨|amount|, .income, outDesc, outDate⟩

/-- One `forEach` iteration over the accumulated
`(totalIncome, totalExpenses, transactions)` state. -/
def stepRow (acc : ℚ × ℚ × List Transaction) (row : Row) : ℚ × ℚ × List Transaction :=
  let t := processRow row
  (acc.1 + (if t.type = .income then t.amount else 0),
   acc.2.1 + (if t.type = .expense then t.amount else 0),
   acc.2.2 ++ [t])

/-- The accumulated state of the `forEach`:
`(totalIncome, totalExpenses, transactions)`. -/
def runRows (rows : List Row) : ℚ × ℚ × List Transaction :=
  rows.foldl stepRow (0, 0, [])

/-! ## Analytics engine (`analyzeTransactions`, aggregate part)

`Env` packages the JS built-ins the analytics code calls but which are not
code of this repository: `new Date(s).getTime()` (with its `isNaN` validity
test) as `parseDate`, the `` `${getFullYear()}-${getMonth()+1}` `` month key
of a time value as `monthKey`, the current clock `new Date()` as `now`, and
`Math.sqrt` as `sqrtQ`. -/

structure Env where
  parseDate : String → Option ℤ
  monthKey : ℤ → String
  now : ℤ
  sqrtQ : ℚ → ℚ

/-- A `monthlyData` bucket. -/
structure MBucket where
  income : ℚ
  expenses : ℚ
  count : ℕ
deriving DecidableEq, Repr

/-- A `detectRecurringPayments` pattern record. -/
structure RPattern where
  description : String
  amount : ℚ
  count : ℕ
  dates : List String
deriving DecidableEq, Repr

/-- One `monthlyBreakdown` entry. -/
structure MonthRow where
  month : String
  income : ℚ
  expenses : ℚ
  savings : ℚ
deriving DecidableEq, Repr

/-! ### Insertion-ordered association lists (JS plain objects) -/

/-- First value stored under key `k` (JS property lookup). -/
def lookupA {κ β : Type} [DecidableEq κ] (k : κ) : List (κ × β) → Option β
  | [] => none
  | (k', b) :: rest => if k' = k then some b else lookupA k rest

/-- Replace the value under key `k` in place (JS property assignment on an
existing key keeps its position). -/
def updateA {κ β : Type} [DecidableEq κ] (k : κ) (b : β) : List (κ × β) → List (κ × β)
  | [] => []
  | (k', b') :: rest => if k' = k then (k', b) :: rest else (k', b') :: updateA k b rest

/-- Remove the first entry stored under key `k` (proof device for association
list extensionality). -/
def eraseA {κ β : Type} [DecidableEq κ] (k : κ) : List (κ × β) → List (κ × β)
  | [] => []
  | (k', b) :: rest => if k' = k then rest else (k', b) :: eraseA k rest

/-- JS `if (!obj[k]) obj[k] = init; mutate(obj[k])`: update in place, or append
a freshly initialised and mutated entry (new keys go last). -/
def upsertA {κ β : Type} [DecidableEq κ] (k : κ) (i : β) (f : β → β)
    (acc : List (κ × β)) : List (κ × β) :=
  match lookupA k acc with
  | some b => updateA k (f b) acc
  | none => acc ++ [(k, f i)]

/-- One grouping step: elements with no key are skipped, the rest upsert the
entry under their key. -/
def gStep {α κ β : Type} [DecidableEq κ] (key : α → Option κ) (i : α → β)
    (f : α → β → β) (acc : List (κ × β)) (a : α) : List (κ × β) :=
  match key a with
  | some k => upsertA k (i a) (f a) acc
  | none => acc

/-- A `forEach` that groups elements into an object keyed by `key a`. -/
def groupFold {α κ β : Type} [DecidableEq κ] (key : α → Option κ) (i : α → β)
    (f : α → β → β) (l : List α) : List (κ × β) :=
  l.foldl (gStep key i f) []

/-! ### The aggregate computations -/

/-- `calculateMean` (source helper): 0 on the empty list. -/
def calculateMean (values : List ℚ) : ℚ :=
  if values.length = 0 then 0 else values.sum / values.length

/-- `calculateStandardDeviation` (source helper), with `Math.sqrt`
abstracted as `env.sqrtQ`. -/
def calculateStandardDeviation (env : Env) (values : List ℚ) : ℚ :=
  if values.length = 0 then 0
  else
    let mean := calculateMean values
    env.sqrtQ (calculateMean (values.map (fun val => (val - mean) ^ 2)))

/-- The month key of a transaction, when its date parses. -/
def txMonthKey (env : Env) (t : Transaction) : Option String :=
  (env.parseDate t.date).map env.monthKey

/-- Per-month bucket update: income or expenses grows by the amount,
the count by one. -/
def bumpMonth (t : Transaction) (b : MBucket) : MBucket :=
  if t.type = .income then ⟨b.income + t.amount, b.expenses, b.count + 1⟩
  else ⟨b.income, b.expenses + t.amount, b.count + 1⟩

/-- `monthlyData`: transactions grouped by calendar month of the parsed date. -/
def monthlyData (env : Env) (l : List Transaction) : List (String × MBucket) :=
  groupFold (txMonthKey env) (fun _ => ⟨0, 0, 0⟩) bumpMonth l

/-- Sum of the amounts of the transactions of one kind. -/
def sumKind (k : TKind) (l : List Transaction) : ℚ :=
  ((l.filter (fun t => t.type = k)).map Transaction.amount).sum

/-- The bucket a transaction list folds to from zero (specification value of a
`monthlyData` entry: kind-partitioned sums and the count). -/
def bucketOf (l : List Transaction) : MBucket :=
  ⟨sumKind .income l, sumKind .expense l, l.length⟩

/-- The grouping key of `detectRecurringPayments`:
`` `${description.toLowerCase()}_${Math.round(amount)}` `` (the rounded amount
carries no underscore, so the template string is injective in this pair). -/
def patKey (t : Transaction) : String × ℤ := (jsLower t.description, jsRound t.amount)

/-- Fresh pattern record before its first bump. -/
def initPattern (t : Transaction) : RPattern := ⟨t.description, t.amount, 0, []⟩

/-- Pattern update: `count++` and `if (t.date) dates.push(t.date)`. -/
def bumpPattern (t : Transaction) (p : RPattern) : RPattern :=
  ⟨p.description, p.amount, p.count + 1, p.dates ++ if t.date ≠ "" then [t.date] else []⟩

/-- The `patterns` object of `detectRecurringPayments`. -/
def patternsOf (l : List Transaction) : List ((String × ℤ) × RPattern) :=
  groupFold (fun t => some (patKey t)) initPattern bumpPattern l

/-- `detectRecurringPayments`: grouped patterns occurring at least twice. -/
def detectRecurringPayments (l : List Transaction) : List RPattern :=
  ((patternsOf l).map Prod.snd).filter (fun p => 2 ≤ p.count)

/-- Debt keywords. -/
def debtKeywords : List String :=
  ["loan", "emi", "credit card", "debt", "repayment", "installment"]

/-- The valid epoch times of the transaction dates. -/
def txTimes (env : Env) (l : List Transaction) : List ℤ :=
  l.filterMap (fun t => env.parseDate t.date)

/-- `Math.min(...)` over a non-empty list (default for the empty case). -/
def listMin (dflt : ℤ) : List ℤ → ℤ
  | [] => dflt
  | t :: ts => ts.foldl min t

/-- `Math.max(...)` over a non-empty list (default for the empty case). -/
def listMax (dflt : ℤ) : List ℤ → ℤ
  | [] => dflt
  | t :: ts => ts.foldl max t

/-- The analytics snapshot returned to the caller.  `rangeStart`/`rangeEnd`
hold the epoch times whose ISO rendering the source returns. -/
@[ext]
structure AnalysisResult where
  totalIncome : ℚ
  totalExpenses : ℚ
  savings : ℚ
  averageMonthlyIncome : ℚ
  averageMonthlyExpenses : ℚ
  savingsPerMonth : ℚ
  savingsRate : ℚ
  transactionCount : ℕ
  transactions : List Transaction
  incomeConsistency : ℚ
  spendingVolatility : ℚ
  emergencySavingsBuffer : ℚ
  billPaymentRegularity : ℚ
  accountAgeMonths : ℚ
  monthlyDebtObligations : ℚ
  totalDebtObligations : ℚ
  monthlyBreakdown : List MonthRow
  rangeStart : ℤ
  rangeEnd : ℤ
  rangeDays : ℤ
deriving DecidableEq

/-- `minDate`: earliest parsed date, or `now` when none parses. -/
def minDateOf (env : Env) (l : List Transaction) : ℤ := listMin env.now (txTimes env l)

/-- `maxDate`: latest parsed date, or `now` when none parses. -/
def maxDateOf (env : Env) (l : List Transaction) : ℤ := listMax env.now (txTimes env l)

/-- `daysDiff = Math.max(1, Math.ceil((maxDate - minDate) / 86400000))`. -/
def daysDiffOf (env : Env) (l : List Transaction) : ℤ :=
  max 1 ⌈((maxDateOf env l - minDateOf env l : ℤ) : ℚ) / (1000 * 60 * 60 * 24)⌉

/-- `monthsDiff = Math.max(1, daysDiff / 30)`. -/
def monthsDiffOf (env : Env) (l : List Transaction) : ℚ :=
  max 1 ((daysDiffOf env l : ℚ) / 30)

/-- The positive per-month income figures (`incomeMonths`). -/
def incomeMonthsOf (env : Env) (l : List Transaction) : List ℚ :=
  (((monthlyData env l).map Prod.snd).map MBucket.income).filter (fun i => 0 < i)

/-- The positive per-month expense figures (`expenseMonths`). -/
def expenseMonthsOf (env : Env) (l : List Transaction) : List ℚ :=
  (((monthlyData env l).map Prod.snd).map MBucket.expenses).filter (fun e => 0 < e)

/-- `incomeConsistencyScore`, clamped to [0, 100]; 0 without positive-income
months; a zero mean divisor is replaced by 1. -/
def incomeConsistencyScoreOf (env : Env) (l : List Transaction) : ℚ :=
  max 0 (min 100
    (if 0 < (incomeMonthsOf env l).length then
      (1 - calculateStandardDeviation env (incomeMonthsOf env l) /
        (if calculateMean (incomeMonthsOf env l) = 0 then 1
         else calculateMean (incomeMonthsOf env l))) * 100
    else 0))

/-- `spendingVolatilityScore`: 100 minus the relative volatility, clamped. -/
def spendingVolatilityScoreOf (env : Env) (l : List Transaction) : ℚ :=
  max 0 (min 100 (100 -
    (if 0 < (expenseMonthsOf env l).length then
      calculateStandardDeviation env (expenseMonthsOf env l) /
        (if calculateMean (expenseMonthsOf env l) = 0 then 1
         else calculateMean (expenseMonthsOf env l)) * 100
    else 0)))

/-- `billPaymentRegularity`: 100 with any recurring pattern, else 50. -/
def billPaymentRegularityOf (l : List Transaction) : ℚ :=
  if 0 < (detectRecurringPayments l).length then 100 else 50

/-- The transactions whose description contains a debt keyword. -/
def debtTransactionsOf (l : List Transaction) : List Transaction :=
  l.filter (fun t => debtKeywords.any (fun kw => jsIncludes (jsLower t.description) kw))

/-- `totalDebtObligations`. -/
def totalDebtObligationsOf (l : List Transaction) : ℚ :=
  ((debtTransactionsOf l).map Transaction.amount).sum

/-- `monthlyBreakdown`: month keys sorted, each mapped to its bucket. -/
def monthlyBreakdownOf (env : Env) (l : List Transaction) : List MonthRow :=
  (((monthlyData env l).map Prod.fst).insertionSort (· ≤ ·)).map
    (fun month =>
      let b := (lookupA month (monthlyData env l)).getD ⟨0, 0, 0⟩
      MonthRow.mk month b.income b.expenses (b.income - b.expenses))

/-- Lines 588–698 of the source: the aggregate part of `analyzeTransactions`,
taking the accumulated totals and transaction list of the `forEach`. -/
def analyzeCore (env : Env) (totalIncome totalExpenses : ℚ)
    (transactions : List Transaction) : AnalysisResult :=
  let savings := totalIncome - totalExpenses
  let monthsDiff := monthsDiffOf env transactions
  let averageMonthlyIncome := totalIncome / monthsDiff
  let averageMonthlyExpenses := totalExpenses / monthsDiff
  let savingsPerMonth := averageMonthlyIncome - averageMonthlyExpenses
  { totalIncome := totalIncome
    totalExpenses := totalExpenses
    savings := savings
    averageMonthlyIncome := averageMonthlyIncome
    averageMonthlyExpenses := averageMonthlyExpenses
    savingsPerMonth := savingsPerMonth
    savingsRate :=
      if 0 < averageMonthlyIncome then savingsPerMonth / averageMonthlyIncome * 100 else 0
    transactionCount := transactions.length
    transactions := transactions.take 50
    incomeConsistency := incomeConsistencyScoreOf env transactions
    spendingVolatility := spendingVolatilityScoreOf env transactions
    emergencySavingsBuffer :=
      if 0 < averageMonthlyExpenses then savings / averageMonthlyExpenses else 0
    billPaymentRegularity := billPaymentRegularityOf transactions
    accountAgeMonths := monthsDiff
    monthlyDebtObligations := totalDebtObligationsOf transactions / monthsDiff
    totalDebtObligations := totalDebtObligationsOf transactions
    monthlyBreakdown := monthlyBreakdownOf env transactions
    rangeStart := minDateOf env transactions
    rangeEnd := maxDateOf env transactions
    rangeDays := daysDiffOf env transactions }

/-- The analytics engine as a function of the classified transaction list
(the accumulated totals of the `forEach` are exactly the kind-partitioned
amount sums, see `runRows_totalIncome`/`runRows_totalExpenses`). -/
def analyze (env : Env) (l : List Transaction) : AnalysisResult :=
  analyzeCore env (sumKind .income l) (sumKind .expense l) l

/-- The whole of `analyzeTransactions`: rows in, analytics snapshot out. -/
def analyzeTransactions (env : Env) (rows : List Row) : AnalysisResult :=
  let s := runRows rows
  analyzeCore env s.1 s.2.1 s.2.2

/-! ## Eligibility scorer (`checkEligibility`) -/

/-- The scorer's returned record (human-readable strings aside). -/
structure EligibilityResult where
  eligible : Bool
  score : ℤ
  riskLevel : String
  recommendedLoanAmount : ℤ
  maxLoanAmount : ℤ
deriving DecidableEq, Repr

/-- The running score before the final clamp: the nine additive rules of
`checkEligibility` in source order.  In the debt rule, a positive obligation
over a zero average income is `Infinity` in JS and exceeds every ratio bound,
hence the explicit −15 case. -/
def rawScore (a : AnalysisResult) : ℚ :=
  (if a.totalExpenses < a.totalIncome then
      30 + (if a.totalExpenses / a.totalIncome * 100 < 70 then 5 else 0)
    else 0)
  + (if 10000 < a.savingsPerMonth then 25 else if 0 < a.savingsPerMonth then 10 else 0)
  + (if 20 ≤ a.savingsRate then 15
     else if 10 ≤ a.savingsRate then 10
     else if 0 < a.savingsRate then 5 else 0)
  + (if 80 ≤ a.incomeConsistency then 10
     else if 60 ≤ a.incomeConsistency then 7
     else if 40 ≤ a.incomeConsistency then 4 else 0)
  + (if 80 ≤ a.spendingVolatility then 10
     else if 60 ≤ a.spendingVolatility then 7 else 0)
  + (if 6 ≤ a.emergencySavingsBuffer then 10
     else if 3 ≤ a.emergencySavingsBuffer then 7
     else if 0 < a.emergencySavingsBuffer then 4 else 0)
  + (if 80 ≤ a.billPaymentRegularity then 5 else 2)
  + (if 12 ≤ a.accountAgeMonths then 5 else if 6 ≤ a.accountAgeMonths then 3 else 0)
  - (if 0 < a.monthlyDebtObligations then
       if a.averageMonthlyIncome = 0 then 15
       else
         let debtRatio := a.monthlyDebtObligations / a.averageMonthlyIncome * 100
         if 40 < debtRatio then 15 else if 20 < debtRatio then 8 else 0
     else 0)

/-- `score = Math.max(0, Math.min(100, score))`: the final clamped score. -/
def finalScore (a : AnalysisResult) : ℚ := max 0 (min 100 (rawScore a))

/-- `checkEligibility` (strings and the metrics echo omitted). -/
def checkEligibility (a : AnalysisResult) : EligibilityResult :=
  let score := finalScore a
  let eligible : Bool :=
    decide (60 ≤ score) && decide (10000 < a.savingsPerMonth) &&
    decide (a.totalExpenses < a.totalIncome) && decide (5 < a.savingsRate)
  let baseAmount := a.savingsPerMonth * 3
  let scoreMultiplier := score / 100
  let recommendedAmount := min (baseAmount * scoreMultiplier) 100000
  let maxLoanAmount := max recommendedAmount 0
  let riskLevel :=
    if score < 40 then "high"
    else if score < 60 then "medium"
    else if score < 80 then "low"
    else "very-low"
  { eligible := eligible
    score := jsRound score
    riskLevel := riskLevel
    recommendedLoanAmount := if eligible then jsRound recommendedAmount else 0
    maxLoanAmount := jsRound maxLoanAmount }

/-! ## Document-text extractor (`parsePDF`, first pass, per line)

The amount regex `([+-]?[\d,]+\.?\d*)` and date regex
`(\d{1,2}[\/\-]\d{1,2}[\/\-]\d{2,4})` are embedded as explicit matchers with
JS greedy/backtracking semantics. -/

/-- One attempt of the amount regex at the current position: optional sign,
one or more digits/commas, optional decimal point, trailing digits. -/
def matchAmountAt (cs : List Char) : Option (List Char × List Char) :=
  let sgn : List Char := match cs with | '+' :: _ => ['+'] | '-' :: _ => ['-'] | _ => []
  let cs1 : List Char := match cs with | '+' :: r => r | '-' :: r => r | _ => cs
  let core := cs1.takeWhile (fun c => c.isDigit || c == ',')
  if core.isEmpty then none
  else
    let rest1 := cs1.drop core.length
    match rest1 with
    | '.' :: r2 =>
      let frac := r2.takeWhile Char.isDigit
      some (sgn ++ core ++ '.' :: frac, r2.drop frac.length)
    | _ => some (sgn ++ core, rest1)

/-- `line.match(amountPattern)` with the `g` flag: all non-overlapping matches,
scanning left to right (the fuel bounds the scan by the line length). -/
def scanAmounts : ℕ → List Char → List (List Char)
  | 0, _ => []
  | _ + 1, [] => []
  | n + 1, c :: rest =>
    match matchAmountAt (c :: rest) with
    | some (tok, rest') => tok :: scanAmounts n rest'
    | none => scanAmounts n rest

/-- All amount-shaped tokens of a line. -/
def amountTokens (cs : List Char) : List (List Char) := scanAmounts cs.length cs

/-- Exactly `n` digits from the front. -/
def digitsN : ℕ → List Char → Option (List Char × List Char)
  | 0, cs => some ([], cs)
  | _ + 1, [] => none
  | n + 1, c :: r =>
    if c.isDigit then (digitsN n r).map (fun p => (c :: p.1, p.2)) else none

/-- A `/` or `-` separator. -/
def sepP : List Char → Option (Char × List Char)
  | [] => none
  | c :: r => if c == '/' || c == '-' then some (c, r) else none

/-- One fully specified date-shape attempt: `l1` day digits, separator,
`l2` month digits, separator, `ly` year digits. -/
def tryDate (l1 l2 ly : ℕ) (cs : List Char) : Option (List Char) :=
  match digitsN l1 cs with
  | none => none
  | some (d1, r1) =>
    match sepP r1 with
    | none => none
    | some (s1, r2) =>
      match digitsN l2 r2 with
      | none => none
      | some (d2, r3) =>
        match sepP r3 with
        | none => none
        | some (s2, r4) =>
          match digitsN ly r4 with
          | none => none
          | some (dy, _) => some (d1 ++ s1 :: d2 ++ s2 :: dy)

/-- The date regex at one position, in greedy backtracking order. -/
def matchDateAt (cs : List Char) : Option (List Char) :=
  tryDate 2 2 4 cs <|> tryDate 2 2 3 cs <|> tryDate 2 2 2 cs <|>
  tryDate 2 1 4 cs <|> tryDate 2 1 3 cs <|> tryDate 2 1 2 cs <|>
  tryDate 1 2 4 cs <|> tryDate 1 2 3 cs <|> tryDate 1 2 2 cs <|>
  tryDate 1 1 4 cs <|> tryDate 1 1 3 cs <|> tryDate 1 1 2 cs

/-- `line.match(datePattern)`: the first date-shaped token. -/
def findDate : ℕ → List Char → Option (List Char)
  | 0, _ => none
  | _ + 1, [] => none
  | n + 1, c :: rest => matchDateAt (c :: rest) <|> findDate n rest

/-- JS `s.replace(pat, '')` for a plain-string pattern: remove the first
occurrence. -/
def replaceFirst (pat : List Char) : List Char → List Char
  | [] => []
  | c :: rest =>
    if leadsWith pat (c :: rest) then (c :: rest).drop pat.length
    else c :: replaceFirst pat rest

/-- JS `s.replace(/\s+/g, ' ')`: collapse whitespace runs to single spaces. -/
def collapseWs : List Char → Bool → List Char
  | [], _ => []
  | c :: r, prevWs =>
    if c.isWhitespace then
      (if prevWs then [] else [' ']) ++ collapseWs r true
    else c :: collapseWs r false

/-- A transaction extracted from document text (before re-stringification). -/
structure PdfTxn where
  date : String
  description : String
  amount : ℚ
  type : String
deriving DecidableEq, Repr

/-- The header/short-line skip of `parsePDF` (applied to the trimmed line). -/
def pdfHeaderSkip (line : String) : Bool :=
  jsIncludes (jsLower line) "date" || jsIncludes (jsLower line) "description" ||
  jsIncludes (jsLower line) "amount" || jsIncludes (jsLower line) "balance" ||
  decide (line.length < 5)

/-- One iteration of the first extraction loop of `parsePDF`: `none` means the
line contributes no transaction (skipped or dropped). -/
def parsePDFLine (raw : String) : Option PdfTxn :=
  let line := trimL raw.toList
  if pdfHeaderSkip ⟨line⟩ then none
  else
    let dateMatch := findDate line.length line
    let date : String := ⟨dateMatch.getD []⟩
    let amounts := amountTokens line
    if amounts.isEmpty then none
    else
      let amountStr := stripCommas ⟨amounts.getLastD []⟩
      match jsParseFloat amountStr with
      | none => none
      | some amount =>
        if 0 < |amount| ∧ |amount| < 10000000 then
          let desc1 := match dateMatch with
            | some d => trimL (replaceFirst d line)
            | none => line
          let desc2 := amounts.foldl (fun dsc tok => trimL (replaceFirst tok dsc)) desc1
          let description := trimL (collapseWs desc2 false)
          if 0 < description.length then
            some ⟨jsOr date "N/A", jsOr ⟨description⟩ "Transaction", amount,
                  if 0 < amount then "credit" else "debit"⟩
          else none
        else none

/-! ## Concrete inputs used by counterexamples and witnesses -/

/-- A decorative row with no resolvable amount (`remarks` is a type/description
alias, and `parseFloat("hello")` is `NaN`). -/
def exRowNoAmount : Row := [("remarks", "hello")]

/-- A row whose description matches an expense keyword (`payment`) and an
income keyword (`credit`), with no declared `type` property. -/
def exRowBothKw : Row := [("description", "Loan Payment Credited"), ("amount", "250")]

/-- An environment whose date parser rejects everything (all dates invalid). -/
def env0 : Env := ⟨fun _ => none, fun _ => "", 0, fun q => q⟩

/-- An environment with a one-character month key and identity square root,
dating every transaction by its string length. -/
def env1 : Env := ⟨fun s => some s.length, fun n => ⟨[Char.ofNat n.toNat]⟩, 0, fun q => q⟩

/-- An analytics snapshot that scores 100 and is eligible, with a fractional
recommended amount `min(20000.1 × 3 × 1, 100000) = 60000.3`. -/
def exScorerInput : AnalysisResult where
  totalIncome := 100
  totalExpenses := 50
  savings := 50
  averageMonthlyIncome := 50
  averageMonthlyExpenses := 25
  savingsPerMonth := 20000 + 1 / 10
  savingsRate := 50
  transactionCount := 0
  transactions := []
  incomeConsistency := 90
  spendingVolatility := 90
  emergencySavingsBuffer := 7
  billPaymentRegularity := 100
  accountAgeMonths := 12
  monthlyDebtObligations := 0
  totalDebtObligations := 0
  monthlyBreakdown := []
  rangeStart := 0
  rangeEnd := 0
  rangeDays := 1

/-- A sample income transaction. -/
def exTxA : Transaction := ⟨500, .income, "salary", "ab"⟩

/-- A sample expense transaction. -/
def exTxB : Transaction := ⟨120, .expense, "rent", "abc"⟩

/-- A zero-amount transaction (degenerate input). -/
def exTxZero : Transaction := ⟨0, .income, "x", "ab"⟩

/-! ## Theorems -/

theorem checkEligibility_eligible_def (a : AnalysisResult) :
    (checkEligibility a).eligible =
      (decide (60 ≤ finalScore a) && decide (10000 < a.savingsPerMonth) &&
       decide (a.totalExpenses < a.totalIncome) && decide (5 < a.savingsRate)) := rfl

theorem checkEligibility_rec_def (a : AnalysisResult) :
    (checkEligibility a).recommendedLoanAmount =
      if (checkEligibility a).eligible then
        jsRound (min (a.savingsPerMonth * 3 * (finalScore a / 100)) 100000)
      else 0 := rfl

theorem checkEligibility_max_def (a : AnalysisResult) :
    (checkEligibility a).maxLoanAmount =
      jsRound (max (min (a.savingsPerMonth * 3 * (finalScore a / 100)) 100000) 0) := rfl

/-- C1: the eligibility flag is true exactly when all four conditions hold:
clamped score at least 60, savingsPerMonth strictly above 10000, totalIncome
strictly above totalExpenses, and savingsRate strictly above 5. -/
theorem eligible_iff_all_four (a : AnalysisResult) :
    (checkEligibility a).eligible = true ↔
      (60 ≤ finalScore a ∧ 10000 < a.savingsPerMonth ∧
       a.totalExpenses < a.totalIncome ∧ 5 < a.savingsRate) := by
  rw [checkEligibility_eligible_def]
  simp [and_assoc]

/-- C2 counterexample: on a concrete eligible snapshot the returned
recommended amount is the rounded integer 60000, not the computed value
60000.3, so it does not equal `min(savingsPerMonth × 3 × (score/100), 100000)`
floored at 0. -/
theorem recommended_amount_not_exact :
    (checkEligibility exScorerInput).eligible = true ∧
      ((checkEligibility exScorerInput).recommendedLoanAmount : ℚ) ≠
        max 0 (min (exScorerInput.savingsPerMonth * 3 * (finalScore exScorerInput / 100))
          100000) := by
  have hraw : rawScore exScorerInput = 115 := by norm_num [rawScore, exScorerInput]
  have hfs : finalScore exScorerInput = 100 := by rw [finalScore, hraw]; norm_num
  constructor
  · rw [checkEligibility_eligible_def, hfs]
    norm_num [exScorerInput]
  · rw [checkEligibility_rec_def, checkEligibility_eligible_def, hfs]
    norm_num [exScorerInput, jsRound]

/-- C2 amended: the scorer computes `v = max(0, min(savingsPerMonth × 3 ×
(score/100), 100000))`; the returned recommended loan amount is `v` rounded to
the nearest integer (half up) when eligible and 0 otherwise, and the returned
maximum loan amount is `v` rounded the same way regardless of eligibility. -/
theorem loan_amounts_formula (a : AnalysisResult) :
    (checkEligibility a).recommendedLoanAmount =
      (if (checkEligibility a).eligible = true then
        jsRound (max 0 (min (a.savingsPerMonth * 3 * (finalScore a / 100)) 100000))
      else 0) ∧
    (checkEligibility a).maxLoanAmount =
      jsRound (max 0 (min (a.savingsPerMonth * 3 * (finalScore a / 100)) 100000)) := by
  have hmax : max (min (a.savingsPerMonth * 3 * (finalScore a / 100)) 100000) 0 =
      max 0 (min (a.savingsPerMonth * 3 * (finalScore a / 100)) 100000) := max_comm _ _
  refine ⟨?_, by rw [checkEligibility_max_def, hmax]⟩
  rw [checkEligibility_rec_def]
  by_cases h : (checkEligibility a).eligible = true
  · rw [if_pos h, if_pos h]
    have h4 := (eligible_iff_all_four a).mp h
    have hsp : (0 : ℚ) ≤ a.savingsPerMonth * 3 :=
      mul_nonneg (le_of_lt (lt_trans (by norm_num) h4.2.1)) (by norm_num)
    have hfs : (0 : ℚ) ≤ finalScore a / 100 :=
      div_nonneg (le_max_left 0 _) (by norm_num)
    have hv : (0 : ℚ) ≤ min (a.savingsPerMonth * 3 * (finalScore a / 100)) 100000 :=
      le_min (mul_nonneg hsp hfs) (by norm_num)
    rw [max_eq_right hv]
  · rw [if_neg h, if_neg h]

theorem processRow_amount (row : Row) : (processRow row).amount = |resolveAmount row| := by
  unfold processRow
  dsimp only
  split_ifs <;> rfl

theorem sumKind_cons (k : TKind) (t : Transaction) (l : List Transaction) :
    sumKind k (t :: l) = (if t.type = k then t.amount else 0) + sumKind k l := by
  by_cases h : t.type = k <;> simp [sumKind, List.filter_cons, h]

theorem sumKind_append (k : TKind) (l₁ l₂ : List Transaction) :
    sumKind k (l₁ ++ l₂) = sumKind k l₁ + sumKind k l₂ := by
  simp [sumKind, List.filter_append]

theorem sumKind_split (l : List Transaction) :
    sumKind .income l + sumKind .expense l = (l.map Transaction.amount).sum := by
  induction l with
  | nil => simp [sumKind]
  | cons t rest ih =>
    rw [sumKind_cons, sumKind_cons, List.map_cons, List.sum_cons, ← ih]
    cases h : t.type <;> simp [h] <;> ring

theorem foldl_stepRow (rows : List Row) (acc : ℚ × ℚ × List Transaction) :
    rows.foldl stepRow acc =
      (acc.1 + sumKind .income (rows.map processRow),
       acc.2.1 + sumKind .expense (rows.map processRow),
       acc.2.2 ++ rows.map processRow) := by
  induction rows generalizing acc with
  | nil => simp [sumKind]
  | cons r rest ih =>
    rw [List.foldl_cons, ih, List.map_cons, sumKind_cons, sumKind_cons]
    simp [stepRow, add_assoc]

theorem runRows_eq (rows : List Row) :
    runRows rows =
      (sumKind .income (rows.map processRow),
       sumKind .expense (rows.map processRow),
       rows.map processRow) := by
  rw [runRows, foldl_stepRow]
  simp

/-- C5: the accumulated totals partition the produced transactions exactly:
totalIncome is the amount sum of the income transactions, totalExpenses the
amount sum of the expense transactions, their sum is the amount sum of all
produced transactions, and savings is exactly their difference. -/
theorem totals_partition_transactions (env : Env) (rows : List Row) :
    (analyzeTransactions env rows).totalIncome = sumKind .income (runRows rows).2.2 ∧
    (analyzeTransactions env rows).totalExpenses = sumKind .expense (runRows rows).2.2 ∧
    (analyzeTransactions env rows).totalIncome + (analyzeTransactions env rows).totalExpenses
      = (((runRows rows).2.2).map Transaction.amount).sum ∧
    (analyzeTransactions env rows).savings
      = (analyzeTransactions env rows).totalIncome - (analyzeTransactions env rows).totalExpenses := by
  have h := runRows_eq rows
  refine ⟨?_, ?_, ?_, rfl⟩
  · show (runRows rows).1 = _
    rw [h]
  · show (runRows rows).2.1 = _
    rw [h]
  · show (runRows rows).1 + (runRows rows).2.1 = _
    rw [h]
    exact sumKind_split _

/-- C6: the normalizer/classifier stores the absolute value of the resolved
raw amount, so every produced transaction has a non-negative amount. -/
theorem transaction_amount_nonneg (row : Row) :
    (processRow row).amount = |resolveAmount row| ∧ 0 ≤ (processRow row).amount := by
  refine ⟨processRow_amount row, ?_⟩
  rw [processRow_amount row]
  exact abs_nonneg _

/-- C7: when the declared `type` property is neither the literal `credit` nor
`debit` and the case-folded description/type text matches both an expense
keyword and an income keyword, the classifier assigns expense. -/
theorem expense_keywords_take_priority (row : Row)
    (h1 : rowRawType row ≠ some "credit") (h2 : rowRawType row ≠ some "debit")
    (h3 : hasAnyKeyword expenseKeywords (rowDescLower row) = true)
    (h4 : hasAnyKeyword incomeKeywords (rowDescLower row) = true) :
    (processRow row).type = .expense := by
  unfold processRow
  dsimp only
  rw [if_neg h1, if_neg h2, if_pos h3]

theorem expense_keywords_take_priority_witness :
    rowRawType exRowBothKw ≠ some "credit" ∧ rowRawType exRowBothKw ≠ some "debit" ∧
    hasAnyKeyword expenseKeywords (rowDescLower exRowBothKw) = true ∧
    hasAnyKeyword incomeKeywords (rowDescLower exRowBothKw) = true ∧
    (processRow exRowBothKw).type = .expense :=
  ⟨by decide, by decide, by decide, by decide,
   expense_keywords_take_priority exRowBothKw (by decide) (by decide) (by decide) (by decide)⟩

/-- C3 counterexample: the decorative row `{remarks: "hello"}` resolves no
amount, yet the normalizer does not drop it: it produces one transaction, so
the row does contribute to the transaction count. -/
theorem unresolved_amount_row_not_dropped :
    resolveAmount exRowNoAmount = 0 ∧ ((runRows [exRowNoAmount]).2.2).length = 1 := by
  constructor
  · decide
  · decide

/-- C3 amended: a row in which no amount can be resolved is not dropped: it
still produces exactly one transaction (with amount 0, classified by the
usual keyword/sign rules), which contributes nothing to totalIncome or
totalExpenses but does count toward the transaction count. -/
theorem unresolved_amount_row_contributes_zero (rows : List Row) (row : Row)
    (h : resolveAmount row = 0) :
    (runRows (rows ++ [row])).2.2 = (runRows rows).2.2 ++ [processRow row] ∧
    (processRow row).amount = 0 ∧
    (runRows (rows ++ [row])).1 = (runRows rows).1 ∧
    (runRows (rows ++ [row])).2.1 = (runRows rows).2.1 := by
  have hamt : (processRow row).amount = 0 := by
    rw [processRow_amount row, h, abs_zero]
  have hz : ∀ k : TKind, sumKind k [processRow row] = 0 := by
    intro k
    rw [sumKind_cons]
    simp [sumKind, hamt]
  refine ⟨?_, hamt, ?_, ?_⟩
  · rw [runRows_eq, runRows_eq]
    simp
  · rw [runRows_eq, runRows_eq]
    simp only [List.map_append, sumKind_append, List.map_cons, List.map_nil]
    rw [hz .income]
    ring
  · rw [runRows_eq, runRows_eq]
    simp only [List.map_append, sumKind_append, List.map_cons, List.map_nil]
    rw [hz .expense]
    ring

theorem unresolved_amount_row_contributes_zero_witness :
    resolveAmount exRowNoAmount = 0 ∧
    ((runRows ([] ++ [exRowNoAmount])).2.2 = (runRows []).2.2 ++ [processRow exRowNoAmount] ∧
     (processRow exRowNoAmount).amount = 0 ∧
     (runRows ([] ++ [exRowNoAmount])).1 = (runRows []).1 ∧
     (runRows ([] ++ [exRowNoAmount])).2.1 = (runRows []).2.1) :=
  ⟨by decide, unresolved_amount_row_contributes_zero [] exRowNoAmount (by decide)⟩

section AssocLemmas

variable {κ β : Type} [DecidableEq κ]

theorem lookupA_eq_none_iff (k : κ) (l : List (κ × β)) :
    lookupA k l = none ↔ k ∉ l.map Prod.fst := by
  induction l with
  | nil => simp [lookupA]
  | cons kb rest ih =>
    obtain ⟨k', b⟩ := kb
    by_cases h : k' = k
    · subst h
      simp [lookupA]
    · rw [lookupA, if_neg h, ih]
      simp only [List.map_cons, List.mem_cons, not_or]
      exact ⟨fun hk => ⟨fun e => h e.symm, hk⟩, And.right⟩

theorem lookupA_isSome_mem {k : κ} {l : List (κ × β)} (h : (lookupA k l).isSome) :
    k ∈ l.map Prod.fst := by
  by_contra hmem
  rw [← lookupA_eq_none_iff] at hmem
  rw [hmem] at h
  simp at h

theorem lookupA_mem {k : κ} {b : β} {l : List (κ × β)} (h : lookupA k l = some b) :
    (k, b) ∈ l := by
  induction l with
  | nil => simp [lookupA] at h
  | cons kb rest ih =>
    obtain ⟨k', b'⟩ := kb
    by_cases hk : k' = k
    · subst hk
      rw [lookupA, if_pos rfl] at h
      obtain rfl : b' = b := by injection h
      exact List.mem_cons_self _ _
    · rw [lookupA, if_neg hk] at h
      exact List.mem_cons_of_mem _ (ih h)

theorem mem_lookupA {k : κ} {b : β} {l : List (κ × β)}
    (hnd : (l.map Prod.fst).Nodup) (h : (k, b) ∈ l) : lookupA k l = some b := by
  induction l with
  | nil => simp at h
  | cons kb rest ih =>
    obtain ⟨k', b'⟩ := kb
    rw [List.map_cons, List.nodup_cons] at hnd
    rcases List.mem_cons.mp h with heq | htail
    · obtain ⟨rfl, rfl⟩ := Prod.mk.injEq .. ▸ heq
      · exact if_pos rfl
    · have hk : k' ≠ k := by
        intro e
        subst e
        exact hnd.1 (List.mem_map.mpr ⟨(k', b), htail, rfl⟩)
      rw [lookupA, if_neg hk]
      exact ih hnd.2 htail

theorem updateA_map_fst (k : κ) (b : β) (l : List (κ × β)) :
    (updateA k b l).map Prod.fst = l.map Prod.fst := by
  induction l with
  | nil => rfl
  | cons kb rest ih =>
    obtain ⟨k', b'⟩ := kb
    by_cases h : k' = k
    · simp [updateA, h]
    · simp [updateA, h, ih]

theorem lookupA_updateA_self (k : κ) (b : β) (l : List (κ × β)) :
    lookupA k (updateA k b l) = (lookupA k l).map (fun _ => b) := by
  induction l with
  | nil => rfl
  | cons kb rest ih =>
    obtain ⟨k', b'⟩ := kb
    by_cases h : k' = k
    · subst h
      rw [updateA, if_pos rfl, lookupA, if_pos rfl, lookupA, if_pos rfl]
      rfl
    · rw [updateA, if_neg h, lookupA, if_neg h, lookupA, if_neg h]
      exact ih

theorem lookupA_updateA_ne {k' k : κ} (h : k' ≠ k) (b : β) (l : List (κ × β)) :
    lookupA k' (updateA k b l) = lookupA k' l := by
  induction l with
  | nil => rfl
  | cons kb rest ih =>
    obtain ⟨k'', b'⟩ := kb
    by_cases h2 : k'' = k
    · subst h2
      have hne : k'' ≠ k' := fun e => h e.symm
      rw [updateA, if_pos rfl, lookupA, if_neg hne, lookupA, if_neg hne]
    · rw [updateA, if_neg h2]
      by_cases h3 : k'' = k'
      · rw [lookupA, if_pos h3, lookupA, if_pos h3]
      · rw [lookupA, if_neg h3, lookupA, if_neg h3]
        exact ih

theorem lookupA_append (k : κ) (l₁ l₂ : List (κ × β)) :
    lookupA k (l₁ ++ l₂) =
      match lookupA k l₁ with
      | some b => some b
      | none => lookupA k l₂ := by
  induction l₁ with
  | nil => simp [lookupA]
  | cons kb rest ih =>
    obtain ⟨k', b'⟩ := kb
    by_cases h : k' = k
    · simp [lookupA, h]
    · simp [lookupA, h, ih]

theorem lookupA_upsertA_self (k : κ) (i : β) (f : β → β) (l : List (κ × β)) :
    lookupA k (upsertA k i f l) = some (f ((lookupA k l).getD i)) := by
  unfold upsertA
  cases h : lookupA k l with
  | some b => rw [lookupA_updateA_self, h]; rfl
  | none =>
    rw [lookupA_append, h]
    simp [lookupA]

theorem lookupA_upsertA_ne {k' k : κ} (h : k' ≠ k) (i : β) (f : β → β) (l : List (κ × β)) :
    lookupA k' (upsertA k i f l) = lookupA k' l := by
  unfold upsertA
  cases hl : lookupA k l with
  | some b => exact lookupA_updateA_ne h _ _
  | none =>
    rw [lookupA_append]
    cases h2 : lookupA k' l with
    | some b => rfl
    | none =>
      rw [lookupA, if_neg (fun e => h e.symm), lookupA]

theorem mem_upsertA_map_fst (k k' : κ) (i : β) (f : β → β) (l : List (κ × β)) :
    k ∈ (upsertA k' i f l).map Prod.fst ↔ k ∈ l.map Prod.fst ∨ k = k' := by
  unfold upsertA
  cases h : lookupA k' l with
  | some b =>
    rw [updateA_map_fst]
    constructor
    · exact Or.inl
    · rintro (hm | rfl)
      · exact hm
      · exact lookupA_isSome_mem (by rw [h]; rfl)
  | none => simp

theorem upsertA_nodup_fst (k : κ) (i : β) (f : β → β) (l : List (κ × β))
    (h : (l.map Prod.fst).Nodup) : ((upsertA k i f l).map Prod.fst).Nodup := by
  unfold upsertA
  cases hl : lookupA k l with
  | some b => rw [updateA_map_fst]; exact h
  | none =>
    rw [List.map_append]
    rw [List.nodup_append]
    refine ⟨h, by simp, ?_⟩
    intro x hx hx2
    simp at hx2
    subst hx2
    exact ((lookupA_eq_none_iff x l).mp hl) hx

end AssocLemmas

section GroupFoldLemmas

variable {α κ β : Type} [DecidableEq κ]

theorem gFold_lookup (key : α → Option κ) (i : α → β) (f : α → β → β)
    (l : List α) (acc : List (κ × β)) (k : κ) :
    lookupA k (l.foldl (gStep key i f) acc) =
      match lookupA k acc with
      | some b => some ((l.filter (fun a => key a = some k)).foldl (fun b a => f a b) b)
      | none =>
        match l.filter (fun a => key a = some k) with
        | [] => none
        | a₀ :: rest => some (rest.foldl (fun b a => f a b) (f a₀ (i a₀))) := by
  induction l generalizing acc with
  | nil =>
    cases h : lookupA k acc <;> simp [h]
  | cons a l ih =>
    rw [List.foldl_cons]
    by_cases hk : key a = some k
    · have hstep : gStep key i f acc a = upsertA k (i a) (f a) acc := by
        unfold gStep
        rw [hk]
      rw [hstep, ih, List.filter_cons, if_pos (by simpa using hk)]
      rw [lookupA_upsertA_self]
      cases h : lookupA k acc with
      | some b => simp [h]
      | none => simp [h]
    · have hlook : lookupA k (gStep key i f acc a) = lookupA k acc := by
        unfold gStep
        cases hka : key a with
        | none => rfl
        | some k' =>
          have hne : k ≠ k' := by
            intro e
            subst e
            exact hk hka
          exact lookupA_upsertA_ne hne _ _ _
      rw [ih, hlook, List.filter_cons, if_neg (by simpa using hk)]

theorem gFold_keys_nodup (key : α → Option κ) (i : α → β) (f : α → β → β)
    (l : List α) (acc : List (κ × β)) (h : (acc.map Prod.fst).Nodup) :
    ((l.foldl (gStep key i f) acc).map Prod.fst).Nodup := by
  induction l generalizing acc with
  | nil => exact h
  | cons a l ih =>
    rw [List.foldl_cons]
    refine ih _ ?_
    unfold gStep
    cases key a with
    | none => exact h
    | some k => exact upsertA_nodup_fst k _ _ _ h

theorem gFold_keys_mem (key : α → Option κ) (i : α → β) (f : α → β → β)
    (l : List α) (acc : List (κ × β)) (k : κ) :
    k ∈ (l.foldl (gStep key i f) acc).map Prod.fst ↔
      k ∈ acc.map Prod.fst ∨ ∃ a ∈ l, key a = some k := by
  induction l generalizing acc with
  | nil => simp
  | cons a l ih =>
    rw [List.foldl_cons, ih]
    unfold gStep
    cases hka : key a with
    | none =>
      simp only [List.mem_cons]
      constructor
      · rintro (hm | he)
        · exact Or.inl hm
        · exact Or.inr (by obtain ⟨x, hx, hxx⟩ := he; exact ⟨x, Or.inr hx, hxx⟩)
      · rintro (hm | ⟨x, hx | hx, hxx⟩)
        · exact Or.inl hm
        · rw [hx, hka] at hxx
          exact absurd hxx (by simp)
        · exact Or.inr ⟨x, hx, hxx⟩
    | some k' =>
      rw [mem_upsertA_map_fst]
      constructor
      · rintro ((hm | rfl) | he)
        · exact Or.inl hm
        · exact Or.inr ⟨a, by simp, hka⟩
        · obtain ⟨x, hx, hxx⟩ := he
          exact Or.inr ⟨x, List.mem_cons_of_mem _ hx, hxx⟩
      · rintro (hm | ⟨x, hx, hxx⟩)
        · exact Or.inl (Or.inl hm)
        · rcases List.mem_cons.mp hx with rfl | hx2
          · rw [hka] at hxx
            exact Or.inl (Or.inr (by injection hxx with e; exact e.symm))
          · exact Or.inr ⟨x, hx2, hxx⟩

end GroupFoldLemmas

theorem bumpMonth_eq (t : Transaction) (b : MBucket) :
    bumpMonth t b =
      ⟨b.income + (if t.type = .income then t.amount else 0),
       b.expenses + (if t.type = .expense then t.amount else 0),
       b.count + 1⟩ := by
  unfold bumpMonth
  cases h : t.type <;> simp [h]

theorem foldl_bumpMonth (l : List Transaction) (b : MBucket) :
    l.foldl (fun b t => bumpMonth t b) b =
      ⟨b.income + sumKind .income l, b.expenses + sumKind .expense l, b.count + l.length⟩ := by
  induction l generalizing b with
  | nil =>
    cases b
    simp [sumKind]
  | cons t l ih =>
    rw [List.foldl_cons, ih, bumpMonth_eq, sumKind_cons, sumKind_cons]
    simp only [MBucket.mk.injEq, List.length_cons]
    refine ⟨by ring, by ring, by omega⟩

/-- Closed form of a `monthlyData` entry: the bucket under key `k` aggregates
exactly the transactions whose parsed date falls in month `k`. -/
theorem monthlyData_lookup (env : Env) (l : List Transaction) (k : String) :
    lookupA k (monthlyData env l) =
      match l.filter (fun t => txMonthKey env t = some k) with
      | [] => none
      | a₀ :: rest => some (bucketOf (a₀ :: rest)) := by
  unfold monthlyData groupFold
  rw [gFold_lookup]
  have h0 : lookupA k ([] : List (String × MBucket)) = none := rfl
  rw [h0]
  cases hf : l.filter (fun t => txMonthKey env t = some k) with
  | nil => rfl
  | cons a₀ rest =>
    dsimp only
    rw [foldl_bumpMonth, bumpMonth_eq]
    unfold bucketOf
    rw [sumKind_cons, sumKind_cons]
    simp only [Option.some.injEq, MBucket.mk.injEq, List.length_cons]
    refine ⟨by ring, by ring, by omega⟩

theorem monthlyData_nodup (env : Env) (l : List Transaction) :
    ((monthlyData env l).map Prod.fst).Nodup :=
  gFold_keys_nodup _ _ _ _ _ (by simp)

/-- The bucket components of every `monthlyData` entry are the kind-partitioned
sums and count of that month's transactions. -/
theorem monthlyData_mem_eq (env : Env) {l : List Transaction} {k : String} {b : MBucket}
    (h : (k, b) ∈ monthlyData env l) :
    b = bucketOf (l.filter (fun t => txMonthKey env t = some k)) := by
  have hl := mem_lookupA (monthlyData_nodup env l) h
  rw [monthlyData_lookup] at hl
  cases hf : l.filter (fun t => txMonthKey env t = some k) with
  | nil =>
    rw [hf] at hl
    exact absurd hl (by simp)
  | cons a₀ rest =>
    rw [hf] at hl
    injection hl with e
    exact e.symm

theorem analyze_savingsRate (env : Env) (l : List Transaction) :
    (analyze env l).savingsRate =
      if 0 < sumKind .income l / monthsDiffOf env l then
        (sumKind .income l / monthsDiffOf env l - sumKind .expense l / monthsDiffOf env l) /
          (sumKind .income l / monthsDiffOf env l) * 100
      else 0 := rfl

theorem analyze_buffer (env : Env) (l : List Transaction) :
    (analyze env l).emergencySavingsBuffer =
      if 0 < sumKind .expense l / monthsDiffOf env l then
        (sumKind .income l - sumKind .expense l) / (sumKind .expense l / monthsDiffOf env l)
      else 0 := rfl

theorem rat_list_sum_zero {xs : List ℚ} (h : ∀ x ∈ xs, 0 ≤ x) (hz : xs.sum = 0) :
    ∀ x ∈ xs, x = 0 := by
  induction xs with
  | nil => simp
  | cons x xs ih =>
    rw [List.sum_cons] at hz
    have hx : 0 ≤ x := h x (List.mem_cons_self _ _)
    have hxs : 0 ≤ xs.sum := List.sum_nonneg (fun y hy => h y (List.mem_cons_of_mem _ hy))
    have hx0 : x = 0 := le_antisymm (by linarith) hx
    intro y hy
    rcases List.mem_cons.mp hy with rfl | hy2
    · exact hx0
    · exact ih (fun z hz2 => h z (List.mem_cons_of_mem _ hz2)) (by linarith) y hy2

/-- If every transaction of `l'` also lies in `l`, all amounts of `l` are
non-negative, and the income amounts of `l` sum to zero, then the income
amounts of `l'` sum to zero as well (and likewise for expenses). -/
theorem sumKind_zero_of_subset (k : TKind) {l l' : List Transaction}
    (hsub : ∀ t ∈ l', t ∈ l) (hnn : ∀ t ∈ l, 0 ≤ t.amount)
    (h0 : sumKind k l = 0) : sumKind k l' = 0 := by
  have hz : ∀ t ∈ l, t.type = k → t.amount = 0 := by
    intro t ht htk
    have hmem : t.amount ∈ ((l.filter (fun t => t.type = k)).map Transaction.amount) :=
      List.mem_map.mpr ⟨t, List.mem_filter.mpr ⟨ht, by simp [htk]⟩, rfl⟩
    refine rat_list_sum_zero ?_ h0 _ hmem
    intro x hx
    obtain ⟨u, hu, rfl⟩ := List.mem_map.mp hx
    exact hnn u (List.mem_filter.mp hu).1
  refine List.sum_eq_zero ?_
  intro x hx
  obtain ⟨u, hu, rfl⟩ := List.mem_map.mp hx
  obtain ⟨hu1, hu2⟩ := List.mem_filter.mp hu
  exact hz u (hsub u hu1) (by simpa using hu2)

/-- C8: degenerate inputs take the documented defaults and never fail: on the
empty list, and whenever total income (resp. total expenses) is zero over
non-negative amounts, the guarded divisions return 0 — savingsRate and
incomeConsistency default to 0 with zero income, emergencySavingsBuffer
defaults to 0 with zero expenses, and the scorer stays total on the result. -/
theorem degenerate_inputs_take_defaults (env : Env) (l : List Transaction) :
    (l = [] →
      (analyze env l).savingsRate = 0 ∧ (analyze env l).emergencySavingsBuffer = 0 ∧
      (analyze env l).incomeConsistency = 0) ∧
    ((∀ t ∈ l, 0 ≤ t.amount) → (analyze env l).totalIncome = 0 →
      (analyze env l).savingsRate = 0 ∧ (analyze env l).incomeConsistency = 0) ∧
    ((∀ t ∈ l, 0 ≤ t.amount) → (analyze env l).totalExpenses = 0 →
      (analyze env l).emergencySavingsBuffer = 0) := by
  have hrate : sumKind .income l = 0 → (analyze env l).savingsRate = 0 := by
    intro h0
    rw [analyze_savingsRate, h0, zero_div, if_neg (lt_irrefl 0)]
  have hbuf : sumKind .expense l = 0 → (analyze env l).emergencySavingsBuffer = 0 := by
    intro h0
    rw [analyze_buffer, h0, zero_div, if_neg (lt_irrefl 0)]
  have hcons : (∀ t ∈ l, 0 ≤ t.amount) → sumKind .income l = 0 →
      (analyze env l).incomeConsistency = 0 := by
    intro hnn h0
    have hmonths : incomeMonthsOf env l = [] := by
      rw [incomeMonthsOf, List.filter_eq_nil_iff]
      intro x hx
      obtain ⟨b, hb, rfl⟩ := List.mem_map.mp hx
      obtain ⟨kb, hkb, rfl⟩ := List.mem_map.mp hb
      obtain ⟨k, b⟩ := kb
      have hbk := monthlyData_mem_eq env hkb
      have : b.income = 0 := by
        rw [hbk]
        exact sumKind_zero_of_subset .income
          (fun t ht => List.mem_of_mem_filter ht) hnn h0
      simp [this]
    show incomeConsistencyScoreOf env l = 0
    rw [incomeConsistencyScoreOf, hmonths]
    norm_num
  refine ⟨?_, fun hnn h0 => ⟨hrate h0, hcons hnn h0⟩, fun hnn h0 => hbuf h0⟩
  rintro rfl
  exact ⟨hrate rfl, hbuf rfl, hcons (by simp) rfl⟩

theorem degenerate_inputs_take_defaults_witness :
    ((analyze env0 []).savingsRate = 0 ∧ (analyze env0 []).emergencySavingsBuffer = 0 ∧
      (analyze env0 []).incomeConsistency = 0) ∧
    ((analyze env1 [exTxZero]).savingsRate = 0 ∧
      (analyze env1 [exTxZero]).incomeConsistency = 0) ∧
    (analyze env1 [exTxZero]).emergencySavingsBuffer = 0 :=
  ⟨(degenerate_inputs_take_defaults env0 []).1 rfl,
   (degenerate_inputs_take_defaults env1 [exTxZero]).2.1
     (by intro t ht; rw [List.mem_singleton] at ht; subst ht; norm_num [exTxZero])
     (by show sumKind .income [exTxZero] = 0; simp [sumKind, exTxZero]),
   (degenerate_inputs_take_defaults env1 [exTxZero]).2.2
     (by intro t ht; rw [List.mem_singleton] at ht; subst ht; norm_num [exTxZero])
     (by show sumKind .expense [exTxZero] = 0; simp [sumKind, exTxZero])⟩

/-- C10: the returned `transactions` field is the first 50 classified
transactions in classification order, while the count and the aggregate
metrics are computed over the whole list; with at most 50 transactions the
field holds the whole list. -/
theorem transactions_sliced_aggregates_full (env : Env) (l : List Transaction) :
    (analyze env l).transactions = l.take 50 ∧
    (analyze env l).transactionCount = l.length ∧
    (analyze env l).totalIncome = sumKind .income l ∧
    (analyze env l).totalExpenses = sumKind .expense l ∧
    (analyze env l).totalDebtObligations = totalDebtObligationsOf l ∧
    (analyze env l).monthlyBreakdown = monthlyBreakdownOf env l ∧
    (analyze env l).billPaymentRegularity = billPaymentRegularityOf l ∧
    (l.length ≤ 50 → (analyze env l).transactions = l) :=
  ⟨rfl, rfl, rfl, rfl, rfl, rfl, rfl, fun h => List.take_of_length_le h⟩

theorem transactions_sliced_aggregates_full_witness :
    [exTxA].length ≤ 50 ∧ (analyze env0 [exTxA]).transactions = [exTxA] :=
  ⟨by decide, (transactions_sliced_aggregates_full env0 [exTxA]).2.2.2.2.2.2.2 (by decide)⟩

/-! ### Permutation invariance toolkit (for C4) -/

theorem foldl_min_mem (t : ℤ) (ts : List ℤ) : ts.foldl min t ∈ t :: ts := by
  induction ts generalizing t with
  | nil => simp
  | cons u ts ih =>
    rw [List.foldl_cons]
    rcases List.mem_cons.mp (ih (min t u)) with he | hm
    · rw [he]
      rcases min_choice t u with h | h <;> rw [h] <;> simp
    · exact List.mem_cons_of_mem _ (List.mem_cons_of_mem _ hm)

theorem foldl_min_le (t : ℤ) (ts : List ℤ) : ∀ x ∈ t :: ts, ts.foldl min t ≤ x := by
  induction ts generalizing t with
  | nil =>
    intro x hx
    rw [List.mem_singleton] at hx
    subst hx
    simp
  | cons u ts ih =>
    intro x hx
    rw [List.foldl_cons]
    rcases List.mem_cons.mp hx with rfl | hx2
    · exact le_trans (ih (min x u) (min x u) (List.mem_cons_self _ _)) (min_le_left _ _)
    · rcases List.mem_cons.mp hx2 with rfl | hx3
      · exact le_trans (ih (min t x) (min t x) (List.mem_cons_self _ _)) (min_le_right _ _)
      · exact ih (min t u) x (List.mem_cons_of_mem _ hx3)

theorem foldl_max_mem (t : ℤ) (ts : List ℤ) : ts.foldl max t ∈ t :: ts := by
  induction ts generalizing t with
  | nil => simp
  | cons u ts ih =>
    rw [List.foldl_cons]
    rcases List.mem_cons.mp (ih (max t u)) with he | hm
    · rw [he]
      rcases max_choice t u with h | h <;> rw [h] <;> simp
    · exact List.mem_cons_of_mem _ (List.mem_cons_of_mem _ hm)

theorem foldl_max_ge (t : ℤ) (ts : List ℤ) : ∀ x ∈ t :: ts, x ≤ ts.foldl max t := by
  induction ts generalizing t with
  | nil =>
    intro x hx
    rw [List.mem_singleton] at hx
    subst hx
    simp
  | cons u ts ih =>
    intro x hx
    rw [List.foldl_cons]
    rcases List.mem_cons.mp hx with rfl | hx2
    · exact le_trans (le_max_left _ _) (ih (max x u) (max x u) (List.mem_cons_self _ _))
    · rcases List.mem_cons.mp hx2 with rfl | hx3
      · exact le_trans (le_max_right _ _) (ih (max t x) (max t x) (List.mem_cons_self _ _))
      · exact ih (max t u) x (List.mem_cons_of_mem _ hx3)

theorem listMin_perm (d : ℤ) {xs ys : List ℤ} (h : xs.Perm ys) :
    listMin d xs = listMin d ys := by
  cases xs with
  | nil =>
    have : ys = [] := h.symm.eq_nil
    subst this
    rfl
  | cons t ts =>
    cases ys with
    | nil => exact absurd h.eq_nil (by simp)
    | cons u us =>
      show ts.foldl min t = us.foldl min u
      apply le_antisymm
      · exact foldl_min_le t ts _ (h.mem_iff.mpr (foldl_min_mem u us))
      · exact foldl_min_le u us _ (h.mem_iff.mp (foldl_min_mem t ts))

theorem listMax_perm (d : ℤ) {xs ys : List ℤ} (h : xs.Perm ys) :
    listMax d xs = listMax d ys := by
  cases xs with
  | nil =>
    have : ys = [] := h.symm.eq_nil
    subst this
    rfl
  | cons t ts =>
    cases ys with
    | nil => exact absurd h.eq_nil (by simp)
    | cons u us =>
      show ts.foldl max t = us.foldl max u
      apply le_antisymm
      · exact foldl_max_ge u us _ (h.mem_iff.mp (foldl_max_mem t ts))
      · exact foldl_max_ge t ts _ (h.mem_iff.mpr (foldl_max_mem u us))

theorem calculateMean_perm {xs ys : List ℚ} (h : xs.Perm ys) :
    calculateMean xs = calculateMean ys := by
  unfold calculateMean
  rw [h.sum_eq, h.length_eq]

theorem calculateStandardDeviation_perm (env : Env) {xs ys : List ℚ} (h : xs.Perm ys) :
    calculateStandardDeviation env xs = calculateStandardDeviation env ys := by
  unfold calculateStandardDeviation
  by_cases hl : xs.length = 0
  · rw [if_pos hl, if_pos (h.length_eq ▸ hl)]
  · rw [if_neg hl, if_neg (h.length_eq ▸ hl), calculateMean_perm h]
    exact congrArg env.sqrtQ (calculateMean_perm (h.map _))

theorem bucketOf_perm {m m' : List Transaction} (hp : m.Perm m') :
    bucketOf m = bucketOf m' := by
  unfold bucketOf sumKind
  rw [((hp.filter _).map _).sum_eq, ((hp.filter _).map _).sum_eq, hp.length_eq]

/-- Entries of an association list with distinct keys are determined by
their key. -/
theorem assoc_key_inj {κ β : Type} [DecidableEq κ] {k : κ} {b c : β} {l : List (κ × β)}
    (hnd : (l.map Prod.fst).Nodup) (h1 : (k, b) ∈ l) (h2 : (k, c) ∈ l) : b = c := by
  have e1 := mem_lookupA hnd h1
  have e2 := mem_lookupA hnd h2
  rw [e1] at e2
  injection e2

theorem eraseA_sublist {κ β : Type} [DecidableEq κ] (k : κ) (l : List (κ × β)) :
    (eraseA k l).Sublist l := by
  induction l with
  | nil => exact List.Sublist.refl _
  | cons kb rest ih =>
    obtain ⟨k', b⟩ := kb
    by_cases h : k' = k
    · rw [eraseA, if_pos h]
      exact List.sublist_cons_self _ _
    · rw [eraseA, if_neg h]
      exact ih.cons₂ _

theorem perm_cons_eraseA {κ β : Type} [DecidableEq κ] {k : κ} {b : β} {l : List (κ × β)}
    (hnd : (l.map Prod.fst).Nodup) (h : (k, b) ∈ l) :
    l.Perm ((k, b) :: eraseA k l) := by
  induction l with
  | nil => simp at h
  | cons kb rest ih =>
    obtain ⟨k₀, b₀⟩ := kb
    rw [List.map_cons, List.nodup_cons] at hnd
    by_cases hk : k₀ = k
    · subst hk
      have hb : b₀ = b := by
        rcases List.mem_cons.mp h with he | htail
        · injection he with e1 e2
          exact e2.symm
        · exact absurd (List.mem_map.mpr ⟨(k₀, b), htail, rfl⟩) hnd.1
      subst hb
      rw [eraseA, if_pos rfl]
    · rw [eraseA, if_neg hk]
      have htail : (k, b) ∈ rest := by
        rcases List.mem_cons.mp h with he | ht
        · injection he with e1 e2
          exact absurd e1.symm hk
        · exact ht
      exact (List.Perm.cons _ (ih hnd.2 htail)).trans (List.Perm.swap _ _ _)

theorem lookupA_eraseA_ne {κ β : Type} [DecidableEq κ] {k' k : κ} (h : k' ≠ k)
    (l : List (κ × β)) : lookupA k' (eraseA k l) = lookupA k' l := by
  induction l with
  | nil => rfl
  | cons kb rest ih =>
    obtain ⟨k₀, b₀⟩ := kb
    by_cases hk : k₀ = k
    · subst hk
      rw [eraseA, if_pos rfl, lookupA, if_neg (fun e => h e.symm)]
    · rw [eraseA, if_neg hk]
      by_cases h2 : k₀ = k'
      · rw [lookupA, if_pos h2, lookupA, if_pos h2]
      · rw [lookupA, if_neg h2, lookupA, if_neg h2]
        exact ih

theorem lookupA_eraseA_self {κ β : Type} [DecidableEq κ] (k : κ) (l : List (κ × β))
    (hnd : (l.map Prod.fst).Nodup) : lookupA k (eraseA k l) = none := by
  induction l with
  | nil => rfl
  | cons kb rest ih =>
    obtain ⟨k₀, b₀⟩ := kb
    rw [List.map_cons, List.nodup_cons] at hnd
    by_cases hk : k₀ = k
    · subst hk
      rw [eraseA, if_pos rfl, lookupA_eq_none_iff]
      exact hnd.1
    · rw [eraseA, if_neg hk, lookupA, if_neg hk]
      exact ih hnd.2

/-- Two association lists with distinct keys and identical lookups are
permutations of each other. -/
theorem assoc_ext_perm {κ β : Type} [DecidableEq κ] :
    ∀ {xs ys : List (κ × β)}, (xs.map Prod.fst).Nodup → (ys.map Prod.fst).Nodup →
      (∀ k, lookupA k xs = lookupA k ys) → xs.Perm ys := by
  intro xs
  induction xs with
  | nil =>
    intro ys _ _ hl
    cases ys with
    | nil => exact .refl _
    | cons kb ys =>
      obtain ⟨k, b⟩ := kb
      have := hl k
      rw [lookupA, lookupA, if_pos rfl] at this
      exact absurd this (by simp)
  | cons kb xs ih =>
    obtain ⟨k, b⟩ := kb
    intro ys hnd1 hnd2 hl
    have hk : lookupA k ys = some b := by
      rw [← hl k, lookupA, if_pos rfl]
    have hmem : (k, b) ∈ ys := lookupA_mem hk
    have hperm : ys.Perm ((k, b) :: eraseA k ys) := perm_cons_eraseA hnd2 hmem
    have hnd1' : (xs.map Prod.fst).Nodup := by
      rw [List.map_cons, List.nodup_cons] at hnd1
      exact hnd1.2
    have hknotin : k ∉ xs.map Prod.fst := by
      rw [List.map_cons, List.nodup_cons] at hnd1
      exact hnd1.1
    have hnd2' : ((eraseA k ys).map Prod.fst).Nodup :=
      List.Nodup.sublist ((eraseA_sublist k ys).map Prod.fst) hnd2
    refine (List.Perm.cons _ (ih hnd1' hnd2' ?_)).trans hperm.symm
    intro k₂
    by_cases hkk : k₂ = k
    · subst hkk
      have h1 : lookupA k₂ xs = none := (lookupA_eq_none_iff _ _).mpr hknotin
      rw [h1, lookupA_eraseA_self k₂ ys hnd2]
    · have h1 : lookupA k₂ ((k, b) :: xs) = lookupA k₂ xs := by
        rw [lookupA, if_neg (fun e => hkk e.symm)]
      rw [← h1, hl k₂, lookupA_eraseA_ne hkk ys]

theorem monthlyData_lookup_perm (env : Env) {l l' : List Transaction} (h : l.Perm l')
    (k : String) : lookupA k (monthlyData env l) = lookupA k (monthlyData env l') := by
  rw [monthlyData_lookup, monthlyData_lookup]
  have hp : (l.filter (fun t => txMonthKey env t = some k)).Perm
      (l'.filter (fun t => txMonthKey env t = some k)) := h.filter _
  cases hf : l.filter (fun t => txMonthKey env t = some k) with
  | nil =>
    rw [hf] at hp
    rw [hp.symm.eq_nil]
  | cons a r =>
    rw [hf] at hp
    cases hf' : l'.filter (fun t => txMonthKey env t = some k) with
    | nil =>
      rw [hf'] at hp
      exact absurd hp.eq_nil (by simp)
    | cons b r' =>
      rw [hf'] at hp
      dsimp only
      rw [bucketOf_perm hp]

theorem monthlyData_perm (env : Env) {l l' : List Transaction} (h : l.Perm l') :
    (monthlyData env l).Perm (monthlyData env l') :=
  assoc_ext_perm (monthlyData_nodup env l) (monthlyData_nodup env l')
    (monthlyData_lookup_perm env h)

theorem monthlyBreakdownOf_perm (env : Env) {l l' : List Transaction} (h : l.Perm l') :
    monthlyBreakdownOf env l = monthlyBreakdownOf env l' := by
  unfold monthlyBreakdownOf
  have hkeys : ((monthlyData env l).map Prod.fst).Perm ((monthlyData env l').map Prod.fst) :=
    (monthlyData_perm env h).map _
  have hsort : ((monthlyData env l).map Prod.fst).insertionSort (· ≤ ·) =
      ((monthlyData env l').map Prod.fst).insertionSort (· ≤ ·) :=
    List.eq_of_perm_of_sorted
      ((List.perm_insertionSort _ _).trans (hkeys.trans (List.perm_insertionSort _ _).symm))
      (List.sorted_insertionSort _ _) (List.sorted_insertionSort _ _)
  rw [hsort]
  exact List.map_congr_left (fun m _ => by rw [monthlyData_lookup_perm env h m])

theorem bumpPattern_count (t : Transaction) (p : RPattern) :
    (bumpPattern t p).count = p.count + 1 := rfl

theorem foldl_bumpPattern_count (l : List Transaction) (p : RPattern) :
    (l.foldl (fun b t => bumpPattern t b) p).count = p.count + l.length := by
  induction l generalizing p with
  | nil => simp
  | cons t l ih =>
    rw [List.foldl_cons, ih, bumpPattern_count, List.length_cons]
    omega

theorem patternsOf_nodup (l : List Transaction) :
    ((patternsOf l).map Prod.fst).Nodup :=
  gFold_keys_nodup _ _ _ _ _ (by simp)

/-- The count stored in every pattern entry is the number of transactions
with that (case-folded description, rounded amount) key. -/
theorem patternsOf_mem_count {l : List Transaction} {k : String × ℤ} {p : RPattern}
    (h : (k, p) ∈ patternsOf l) :
    p.count = (l.filter (fun t => patKey t = k)).length := by
  have hl := mem_lookupA (patternsOf_nodup l) h
  unfold patternsOf groupFold at hl
  rw [gFold_lookup] at hl
  have hfil : l.filter (fun t => (some (patKey t) : Option (String × ℤ)) = some k) =
      l.filter (fun t => patKey t = k) := by
    apply List.filter_congr
    intro t _
    simp
  rw [hfil] at hl
  revert hl
  cases hf : l.filter (fun t => patKey t = k) with
  | nil => intro hl; exact absurd hl (by simp [lookupA])
  | cons a₀ rest =>
    intro hl
    have h0 : lookupA k ([] : List ((String × ℤ) × RPattern)) = none := rfl
    rw [h0] at hl
    dsimp only at hl
    injection hl with e
    rw [← e, foldl_bumpPattern_count, bumpPattern_count, List.length_cons]
    have : (initPattern a₀).count = 0 := rfl
    omega

theorem patternsOf_keys_mem (l : List Transaction) (k : String × ℤ) :
    k ∈ (patternsOf l).map Prod.fst ↔ ∃ t ∈ l, patKey t = k := by
  unfold patternsOf groupFold
  rw [gFold_keys_mem]
  simp

theorem detectRecurring_length_perm {l l' : List Transaction} (h : l.Perm l') :
    (detectRecurringPayments l).length = (detectRecurringPayments l').length := by
  have count_form : ∀ m : List Transaction,
      (detectRecurringPayments m).length =
        ((patternsOf m).map Prod.fst).countP
          (fun k => 2 ≤ (m.filter (fun t => patKey t = k)).length) := by
    intro m
    unfold detectRecurringPayments
    rw [← List.countP_eq_length_filter, List.countP_map, List.countP_map]
    apply List.countP_congr
    intro e he
    obtain ⟨k, p⟩ := e
    have hc : p.count = (m.filter (fun t => patKey t = k)).length :=
      patternsOf_mem_count he
    simp [Function.comp, hc]
  rw [count_form, count_form]
  have hkeys : ((patternsOf l).map Prod.fst).Perm ((patternsOf l').map Prod.fst) := by
    rw [List.perm_ext_iff_of_nodup (patternsOf_nodup l) (patternsOf_nodup l')]
    intro k
    rw [patternsOf_keys_mem, patternsOf_keys_mem]
    constructor
    · rintro ⟨t, ht, hk⟩
      exact ⟨t, h.mem_iff.mp ht, hk⟩
    · rintro ⟨t, ht, hk⟩
      exact ⟨t, h.mem_iff.mpr ht, hk⟩
  calc ((patternsOf l).map Prod.fst).countP
        (fun k => 2 ≤ (l.filter (fun t => patKey t = k)).length)
      = ((patternsOf l).map Prod.fst).countP
        (fun k => 2 ≤ (l'.filter (fun t => patKey t = k)).length) := by
        apply List.countP_congr
        intro k _
        rw [(h.filter (fun t => patKey t = k)).length_eq]
    _ = ((patternsOf l').map Prod.fst).countP
        (fun k => 2 ≤ (l'.filter (fun t => patKey t = k)).length) :=
        hkeys.countP_eq _

theorem incomeConsistencyScoreOf_perm (env : Env) {l l' : List Transaction} (h : l.Perm l') :
    incomeConsistencyScoreOf env l = incomeConsistencyScoreOf env l' := by
  have hm : (incomeMonthsOf env l).Perm (incomeMonthsOf env l') :=
    (((monthlyData_perm env h).map Prod.snd).map MBucket.income).filter _
  unfold incomeConsistencyScoreOf
  rw [hm.length_eq, calculateMean_perm hm, calculateStandardDeviation_perm env hm]

theorem spendingVolatilityScoreOf_perm (env : Env) {l l' : List Transaction} (h : l.Perm l') :
    spendingVolatilityScoreOf env l = spendingVolatilityScoreOf env l' := by
  have hm : (expenseMonthsOf env l).Perm (expenseMonthsOf env l') :=
    (((monthlyData_perm env h).map Prod.snd).map MBucket.expenses).filter _
  unfold spendingVolatilityScoreOf
  rw [hm.length_eq, calculateMean_perm hm, calculateStandardDeviation_perm env hm]

/-- C4 counterexample: swapping two transactions is a permutation of the
input, yet the returned AnalysisResult differs (its `transactions` field
preserves input order), so analyze is not order-independent in every part of
its output. -/
theorem analyze_not_order_invariant :
    ([exTxA, exTxB].Perm [exTxB, exTxA]) ∧
      analyze env0 [exTxA, exTxB] ≠ analyze env0 [exTxB, exTxA] := by
  refine ⟨by decide, fun heq => ?_⟩
  have h2 := congrArg AnalysisResult.transactions heq
  have e1 : (analyze env0 [exTxA, exTxB]).transactions = [exTxA, exTxB] := by decide
  have e2 : (analyze env0 [exTxB, exTxA]).transactions = [exTxB, exTxA] := by decide
  rw [e1, e2] at h2
  exact absurd h2 (by decide)

/-- C4 amended: the analytics engine is deterministic and, apart from the
`transactions` field (which lists the classified transactions in input order,
truncated to 50), every field of the AnalysisResult is invariant under
permutation of the input transaction list. -/
theorem analyze_order_invariant_outside_transactions (env : Env)
    {l l' : List Transaction} (h : l.Perm l') :
    { analyze env l with transactions := [] } =
      { analyze env l' with transactions := [] } := by
  have hI : sumKind .income l = sumKind .income l' := by
    unfold sumKind
    rw [((h.filter _).map _).sum_eq]
  have hE : sumKind .expense l = sumKind .expense l' := by
    unfold sumKind
    rw [((h.filter _).map _).sum_eq]
  have htimes : (txTimes env l).Perm (txTimes env l') := h.filterMap _
  have hmin : minDateOf env l = minDateOf env l' := listMin_perm _ htimes
  have hmax : maxDateOf env l = maxDateOf env l' := listMax_perm _ htimes
  have hdays : daysDiffOf env l = daysDiffOf env l' := by
    unfold daysDiffOf
    rw [hmin, hmax]
  have hmonths : monthsDiffOf env l = monthsDiffOf env l' := by
    unfold monthsDiffOf
    rw [hdays]
  have hic := incomeConsistencyScoreOf_perm env h
  have hsv := spendingVolatilityScoreOf_perm env h
  have hbill : billPaymentRegularityOf l = billPaymentRegularityOf l' := by
    unfold billPaymentRegularityOf
    rw [detectRecurring_length_perm h]
  have hdebt : totalDebtObligationsOf l = totalDebtObligationsOf l' := by
    unfold totalDebtObligationsOf debtTransactionsOf
    rw [((h.filter _).map _).sum_eq]
  have hbreak := monthlyBreakdownOf_perm env h
  have hlen : l.length = l'.length := h.length_eq
  apply AnalysisResult.ext
  · exact hI
  · exact hE
  · show sumKind .income l - sumKind .expense l = _
    rw [hI, hE]
    rfl
  · show sumKind .income l / monthsDiffOf env l = _
    rw [hI, hmonths]
    rfl
  · show sumKind .expense l / monthsDiffOf env l = _
    rw [hE, hmonths]
    rfl
  · show sumKind .income l / monthsDiffOf env l - sumKind .expense l / monthsDiffOf env l = _
    rw [hI, hE, hmonths]
    rfl
  · show (if 0 < sumKind .income l / monthsDiffOf env l then
        (sumKind .income l / monthsDiffOf env l - sumKind .expense l / monthsDiffOf env l) /
          (sumKind .income l / monthsDiffOf env l) * 100
      else 0) = _
    rw [hI, hE, hmonths]
    rfl
  · exact hlen
  · rfl
  · exact hic
  · exact hsv
  · show (if 0 < sumKind .expense l / monthsDiffOf env l then
        (sumKind .income l - sumKind .expense l) / (sumKind .expense l / monthsDiffOf env l)
      else 0) = _
    rw [hI, hE, hmonths]
    rfl
  · exact hbill
  · exact hmonths
  · show totalDebtObligationsOf l / monthsDiffOf env l = _
    rw [hdebt, hmonths]
    rfl
  · exact hdebt
  · exact hbreak
  · exact hmin
  · exact hmax
  · exact hdays

theorem analyze_order_invariant_outside_transactions_witness :
    ([exTxA, exTxB].Perm [exTxB, exTxA]) ∧
      { analyze env1 [exTxA, exTxB] with transactions := [] } =
        { analyze env1 [exTxB, exTxA] with transactions := [] } :=
  ⟨by decide, analyze_order_invariant_outside_transactions env1 (by decide)⟩

/-- C9: on every non-header document-text line carrying at least one
amount-shaped token, any transaction the extractor produces takes its amount
from the last (rightmost) token, and when that token yields no plausible
amount (unparseable, zero, or at least 10^7 in magnitude) the line is dropped
(`none`) rather than failing — `parsePDFLine` is total. -/
theorem pdf_last_token_is_amount (raw : String)
    (hhdr : pdfHeaderSkip ⟨trimL raw.toList⟩ = false)
    (htok : amountTokens (trimL raw.toList) ≠ []) :
    (∀ t, parsePDFLine raw = some t →
      jsParseFloat (stripCommas ⟨(amountTokens (trimL raw.toList)).getLastD []⟩) =
        some t.amount) ∧
    ((∀ a, jsParseFloat (stripCommas ⟨(amountTokens (trimL raw.toList)).getLastD []⟩) =
        some a → ¬(0 < |a| ∧ |a| < 10000000)) → parsePDFLine raw = none) := by
  unfold parsePDFLine
  dsimp only
  rw [if_neg (by rw [hhdr]; exact Bool.false_ne_true)]
  rw [if_neg (by simpa using htok)]
  cases hp : jsParseFloat (stripCommas ⟨(amountTokens (trimL raw.toList)).getLastD []⟩) with
  | none =>
    constructor
    · intro t ht
      exact absurd ht (by simp)
    · intro _
      rfl
  | some a =>
    dsimp only
    by_cases hpl : 0 < |a| ∧ |a| < 10000000
    · rw [if_pos hpl]
      constructor
      · intro t ht
        split at ht
        · injection ht with e
          rw [← e]
        · exact absurd ht (by simp)
      · intro hB
        exact absurd hpl (hB a rfl)
    · rw [if_neg hpl]
      exact ⟨fun t ht => absurd ht (by simp), fun _ => rfl⟩

theorem pdf_last_token_is_amount_witness :
    pdfHeaderSkip ⟨trimL "01/02/2024 UPI rent 1,200.50 900.00".toList⟩ = false ∧
    amountTokens (trimL "01/02/2024 UPI rent 1,200.50 900.00".toList) ≠ [] ∧
    ((∀ t, parsePDFLine "01/02/2024 UPI rent 1,200.50 900.00" = some t →
      jsParseFloat (stripCommas
        ⟨(amountTokens (trimL "01/02/2024 UPI rent 1,200.50 900.00".toList)).getLastD []⟩) =
        some t.amount) ∧
    ((∀ a, jsParseFloat (stripCommas
        ⟨(amountTokens (trimL "01/02/2024 UPI rent 1,200.50 900.00".toList)).getLastD []⟩) =
        some a → ¬(0 < |a| ∧ |a| < 10000000)) →
      parsePDFLine "01/02/2024 UPI rent 1,200.50 900.00" = none)) :=
  ⟨by decide, by decide,
   pdf_last_token_is_amount "01/02/2024 UPI rent 1,200.50 900.00" (by decide) (by decide)⟩

end Microloan
